import Mathlib

/-!
Verification of the keyframe decimation operators of the graph editor
(`source/blender/editors/space_graph/graph_edit.c`) and of the triangulate
geometry node (`source/blender/nodes/geometry/nodes/node_geo_triangulate.cc`).

Floating point values are embedded as exact rationals.  The machine state the
operators touch (keyframe arrays, the modal session snapshot, the warnings
reported through `WM_report`, operator return values) is passed explicitly, so
an in-place write in C becomes an explicit state transformation here.
-/

namespace Spec2Proof

/-- One keyframe control point (`BezTriple`): time, value, the two Bezier
handles and the interpolation kind. -/
structure BezTriple where
  time : ℚ
  value : ℚ
  handle1 : ℚ × ℚ
  handle2 : ℚ × ℚ
  ipo : ℕ
deriving DecidableEq, Inhabited

/-- An F-Curve as the decimate operators see it: `bezt = none` models a baked
curve (`fcu->bezt == NULL`), `bezt = some pts` a keyframed curve whose
`totvert` is `pts.length`. -/
structure FCurve where
  bezt : Option (List BezTriple)
deriving DecidableEq, Inhabited

/-- Interior indices `1, …, n - 2` of a point array of length `n`: the removal
candidates (the two endpoints are excluded). -/
def interiorIndices (n : ℕ) : List ℕ :=
  (List.range (n - 2)).map (fun j => j + 1)

/-- Leftmost index of minimal cost among `best :: rest`: a later index wins
only with a strictly smaller cost, so ties keep the earlier index. -/
def pickMinAux (cost : ℕ → ℚ) (best : ℕ) : List ℕ → ℕ
  | [] => best
  | i :: rest => pickMinAux cost (if cost i < cost best then i else best) rest

/-- Leftmost index of minimal cost in a list, if the list is nonempty. -/
def pickMin (cost : ℕ → ℚ) : List ℕ → Option ℕ
  | [] => none
  | i :: rest => some (pickMinAux cost i rest)

/-- Modelled from the spec: the removal cost of interior point `i` — the
squared value-axis deviation of the point from the segment reconstructed
between its two neighbours.  The spec leaves the exact metric open (a
documented policy choice); this fixes the value-axis deviation reading. -/
def chordCost (pts : List BezTriple) (i : ℕ) : ℚ :=
  let a := pts.getD (i - 1) default
  let p := pts.getD i default
  let b := pts.getD (i + 1) default
  let t := (p.time - a.time) / (b.time - a.time)
  let lin := a.value + t * (b.value - a.value)
  (p.value - lin) * (p.value - lin)

/-- The globally cheapest interior point of a point array, if any. -/
def cheapestInterior (cost : List BezTriple → ℕ → ℚ) (pts : List BezTriple) : Option ℕ :=
  pickMin (cost pts) (interiorIndices pts.length)

/-- Modelled from the spec: the greedy removal loop inside `decimate_fcurve`
(the routine itself is outside the reviewed sources) — repeatedly remove the
globally cheapest interior point while the removal budget lasts and the
cheapest removal cost stays within the error bound (`⊤` embeds the `FLT_MAX`
argument, meaning no bound). -/
def decimateLoop (cost : List BezTriple → ℕ → ℚ) (err : WithTop ℚ) :
    ℕ → List BezTriple → List BezTriple
  | 0, pts => pts
  | b + 1, pts =>
    match cheapestInterior cost pts with
    | none => pts
    | some i =>
      if (cost pts i : WithTop ℚ) ≤ err then decimateLoop cost err b (pts.eraseIdx i) else pts

/-- Modelled from the spec: `decimate_fcurve` — returns `false` on a curve
without Bezier keyframe data (the caller skips it and reports a warning),
otherwise overwrites the curve in place with the greedily decimated point
array and returns `true`.  The ratio-mode removal budget is
`⌊remove_ratio · n⌋`. -/
def decimate_fcurve (fcu : FCurve) (remove_ratio : ℚ) (error_sq_max : WithTop ℚ) :
    Bool × FCurve :=
  match fcu.bezt with
  | none => (false, fcu)
  | some pts =>
    (true,
      ⟨some (decimateLoop chordCost error_sq_max (⌊remove_ratio * pts.length⌋).toNat pts)⟩)

/-- The batch loop of `decimate_graph_keys`: every filtered curve is handed to
`decimate_fcurve` (which rewrites it in place), and every unsupported curve
produces one `WM_report` warning, emitted inside the loop.  The second
component counts the warnings reported. -/
def decimate_graph_keys (remove_ratio : ℚ) (error_sq_max : WithTop ℚ) :
    List FCurve → List FCurve × ℕ
  | [] => ([], 0)
  | c :: cs =>
    let r := decimate_fcurve c remove_ratio error_sq_max
    let rest := decimate_graph_keys remove_ratio error_sq_max cs
    (r.2 :: rest.1, (if r.1 then 0 else 1) + rest.2)

/-- The snapshot `graphkeys_decimate_invoke` builds (`dgo->bezt_arr_list`):
the point arrays of the non-baked curves, in selection order; baked curves
are skipped. -/
def buildSnapshot (curves : List FCurve) : List (List BezTriple) :=
  curves.filterMap (fun c => c.bezt)

/-- `decimate_reset_bezts`: walk the filtered curves and the snapshot list in
lockstep, skipping baked curves without consuming a snapshot entry, and
overwrite every other curve's point array with its snapshot copy. -/
def decimate_reset_bezts : List FCurve → List (List BezTriple) → List FCurve
  | [], _ => []
  | c :: cs, snaps =>
    match c.bezt with
    | none => c :: decimate_reset_bezts cs snaps
    | some _ =>
      match snaps with
      | [] => c :: decimate_reset_bezts cs []
      | s :: rest => ⟨some s⟩ :: decimate_reset_bezts cs rest

/-- The baked/keyframed shape of a curve list: which entries lack Bezier
data.  The reset-then-decimate cycle never changes this shape. -/
def bakedPattern (curves : List FCurve) : List Bool :=
  curves.map (fun c => c.bezt.isNone)

/-- The state a modal decimate session owns: the live filtered curves and the
snapshot taken at invoke time (`tDecimateGraphOp.bezt_arr_list`). -/
structure SessionState where
  curves : List FCurve
  snapshot : List (List BezTriple)
deriving DecidableEq

/-- Session state exactly as `graphkeys_decimate_invoke` builds it. -/
def startSession (curves : List FCurve) : SessionState :=
  ⟨curves, buildSnapshot curves⟩

/-- `graphkeys_decimate_modal_update`: first restore every curve from the
snapshot (`decimate_reset_bezts`), then re-run the decimator with the current
ratio and a `FLT_MAX` error bound. -/
def graphkeys_decimate_modal_update (remove_ratio : ℚ) (s : SessionState) : SessionState :=
  ⟨(decimate_graph_keys remove_ratio ⊤ (decimate_reset_bezts s.curves s.snapshot)).1,
    s.snapshot⟩

/-- The invariant every state of a session started on `curves0` satisfies:
the snapshot is the one taken at invoke time, and the live curve list keeps
the baked/keyframed shape of the original selection. -/
def sessionInv (curves0 : List FCurve) (s : SessionState) : Prop :=
  s.snapshot = buildSnapshot curves0 ∧ bakedPattern s.curves = bakedPattern curves0

/-- A sequence of modal updates, applied left to right. -/
def applyUpdates (ps : List ℚ) (s : SessionState) : SessionState :=
  ps.foldl (fun t p => graphkeys_decimate_modal_update p t) s

/-- Operator return values used by the decimate operator. -/
inductive OpStatus where
  | finished
  | cancelled
  | runningModal
deriving DecidableEq

/-- What `graphkeys_decimate_invoke` leaves behind: the session (if one was
installed), the return value, and the number of warnings reported. -/
structure InvokeResult where
  session : Option SessionState
  status : OpStatus
  warnings : ℕ
deriving DecidableEq

/-- `graphkeys_decimate_invoke`: snapshot the non-baked curves; when the
snapshot list ends up empty (no supported curve in the selection) report one
warning, free the session data (`decimate_exit`) and return cancelled without
adding the modal handler; otherwise enter modal operation. -/
def graphkeys_decimate_invoke (curves : List FCurve) : InvokeResult :=
  let snap := buildSnapshot curves
  if snap.isEmpty then ⟨none, .cancelled, 1⟩
  else ⟨some ⟨curves, snap⟩, .runningModal, 0⟩

/-- What the cancel branch of `graphkeys_decimate_modal` leaves behind. -/
structure CancelResult where
  curves : List FCurve
  status : OpStatus
  snapshotFreed : Bool
deriving DecidableEq

/-- The Escape / right-mouse-press branch of `graphkeys_decimate_modal`:
restore every curve from the snapshot, free the session data
(`decimate_exit`), and return cancelled. -/
def graphkeys_decimate_cancel (s : SessionState) : CancelResult :=
  ⟨decimate_reset_bezts s.curves s.snapshot, .cancelled, true⟩

/-- The two decimation modes of `GRAPH_OT_decimate` (`tDecimModes`). -/
inductive DecimMode where
  | ratioMode
  | errorMode
deriving DecidableEq

/-- `graphkeys_decimate_exec`: pick `remove_ratio` and `error_sq_max` from the
operator properties according to the mode (the unused one stays at its
neutral default, `1.0` respectively `FLT_MAX`; the error margin is squared),
return `OPERATOR_FINISHED` immediately when either is zero, and otherwise run
the batch decimation. -/
def graphkeys_decimate_exec (mode : DecimMode)
    (remove_ratio_prop remove_error_margin_prop : ℚ)
    (curves : List FCurve) : List FCurve × ℕ × OpStatus :=
  let remove_ratio : ℚ :=
    match mode with
    | .ratioMode => remove_ratio_prop
    | .errorMode => 1
  let error_sq_max : WithTop ℚ :=
    match mode with
    | .ratioMode => ⊤
    | .errorMode => ((remove_error_margin_prop * remove_error_margin_prop : ℚ) : WithTop ℚ)
  if remove_ratio = 0 ∨ error_sq_max = 0 then (curves, 0, .finished)
  else
    let r := decimate_graph_keys remove_ratio error_sq_max curves
    (r.1, r.2, .finished)

/-- The operator state seen by `graphkeys_decimate_modal`: the session, the
current value of the `remove_ratio` RNA property, and whether numeric input
has been engaged (`hasNumInput(&dgo->num)`). -/
structure OpState where
  session : SessionState
  percentage : ℚ
  numEngaged : Bool
deriving DecidableEq

/-- RNA clamps `remove_ratio` to its declared `[0, 1]` soft/hard range on
every property set. -/
def clamp01 (q : ℚ) : ℚ := max 0 (min 1 q)

/-- The parameter-changing events `graphkeys_decimate_modal` dispatches on:
a mouse move carrying a pointer-derived raw ratio, a handled numeric-input
key carrying the entered ratio, or an unhandled pass-through event. -/
inductive ModalEvent where
  | mouseMove (raw : ℚ)
  | numInput (raw : ℚ)
  | passThrough
deriving DecidableEq

/-- Whether an event is a mouse move. -/
def ModalEvent.isMouseMove : ModalEvent → Bool
  | .mouseMove _ => true
  | _ => false

/-- The shared tail of both parameter paths: store the value through the RNA
property (clamped to `[0, 1]`) and run `graphkeys_decimate_modal_update`. -/
def set_ratio_and_update (raw : ℚ) (st : OpState) : OpState :=
  let p := clamp01 raw
  ⟨graphkeys_decimate_modal_update p st.session, p, st.numEngaged⟩

/-- One step of `graphkeys_decimate_modal` for the parameter-changing events.
The dispatch mirrors the C switch: a mouse move updates the parameter only
while `hasNumInput` is false; a handled numeric key routes the entered value
through the same set-property-and-update tail.  Modelled from the spec for
the numeric-input plumbing (`hasNumInput` / `handleNumInput` /
`applyNumInput` are outside the reviewed sources): once engaged, numeric
input stays engaged for the remainder of the session. -/
def graphkeys_decimate_modal_step : ModalEvent → OpState → OpState
  | .mouseMove raw, st => if st.numEngaged then st else set_ratio_and_update raw st
  | .numInput raw, st => set_ratio_and_update raw ⟨st.session, st.percentage, true⟩
  | .passThrough, st => st

/-- A sequence of modal events, applied left to right. -/
def runModal (evts : List ModalEvent) (st : OpState) : OpState :=
  evts.foldl (fun t e => graphkeys_decimate_modal_step e t) st

/-- The degenerate-extent guard at the end of `get_graph_keyframe_extents`
(the `foundBounds` branch), embedded exactly as written: the x branch widens
`*xmin` and `*xmax` by `0.0005` each, while the y branch subtracts and then
adds `0.0005` to `*ymax` and never touches `*ymin`. -/
def extents_degenerate_guard (xmin xmax ymin ymax : ℚ) : ℚ × ℚ × ℚ × ℚ :=
  let x2 : ℚ × ℚ :=
    if |xmax - xmin| < 1 / 1000 then (xmin - 1 / 2000, xmax + 1 / 2000) else (xmin, xmax)
  let ymax2 : ℚ :=
    if |ymax - ymin| < 1 / 1000 then ymax - 1 / 2000 + 1 / 2000 else ymax
  (x2.1, x2.2, ymin, ymax2)

/-- An opaque mesh handle for the triangulate node. -/
structure Mesh where
  mid : ℕ
deriving DecidableEq

/-- A geometry set which may or may not carry a mesh. -/
structure Geometry where
  mesh : Option Mesh
deriving DecidableEq

/-- One recorded call to the external `triangulate_mesh` routine, with the
exact arguments `geo_triangulate_exec` passes. -/
structure TriCall where
  mesh : Mesh
  quad_method : ℤ
  ngon_method : ℤ
  min_vertices : ℤ
  flag : ℤ
deriving DecidableEq

/-- `geo_triangulate_exec`: clamp the Minimum Vertices socket value from
below to `4`, and call `triangulate_mesh(mesh, 3, 0, min_vertices, 0)` only
when the input geometry is present and carries a mesh; otherwise output the
empty geometry.  The second component logs the calls made to the external
triangulation routine. -/
def geo_triangulate_exec (tri : Mesh → ℤ → ℤ → ℤ → ℤ → Mesh)
    (geometry_in : Option Geometry) (min_vertices_socket : ℤ) :
    Option Geometry × List TriCall :=
  let min_vertices := max min_vertices_socket 4
  match geometry_in with
  | none => (none, [])
  | some g =>
    match g.mesh with
    | none => (none, [])
    | some mesh_in =>
      let mesh_out := tri mesh_in 3 0 min_vertices 0
      (some ⟨some mesh_out⟩, [⟨mesh_in, 3, 0, min_vertices, 0⟩])

/-! ## Helper lemmas -/

theorem head?_eraseIdx_of_pos {α : Type} (l : List α) (i : ℕ) (h : 1 ≤ i) :
    (l.eraseIdx i).head? = l.head? := by
  cases l with
  | nil => simp
  | cons a t =>
    cases i with
    | zero => omega
    | succ j => simp [List.eraseIdx_cons_succ]

theorem getLast?_cons_of_ne_nil {α : Type} (a : α) (l : List α) (h : l ≠ []) :
    (a :: l).getLast? = l.getLast? := by
  cases l with
  | nil => exact absurd rfl h
  | cons b t => simp [List.getLast?_cons_cons]

theorem getLast?_eraseIdx {α : Type} (l : List α) (i : ℕ) (h : i + 1 < l.length) :
    (l.eraseIdx i).getLast? = l.getLast? := by
  induction l generalizing i with
  | nil => simp at h
  | cons a t ih =>
    cases i with
    | zero =>
      simp only [List.eraseIdx_cons_zero]
      have ht : t ≠ [] := by
        intro he
        rw [he] at h
        simp at h
      rw [getLast?_cons_of_ne_nil a t ht]
    | succ j =>
      simp only [List.eraseIdx_cons_succ]
      have hj : j + 1 < t.length := by
        simp at h
        omega
      have hne : t.eraseIdx j ≠ [] := by
        intro he
        have hl := List.length_eraseIdx_add_one (l := t) (i := j) (by omega)
        rw [he] at hl
        simp at hl
        omega
      rw [getLast?_cons_of_ne_nil a _ hne, ih j hj,
        getLast?_cons_of_ne_nil a t (by intro he; rw [he] at hj; simp at hj)]

theorem pickMinAux_mem (cost : ℕ → ℚ) :
    ∀ (l : List ℕ) (best : ℕ), pickMinAux cost best l ∈ best :: l := by
  intro l
  induction l with
  | nil => intro best; simp [pickMinAux]
  | cons i rest ih =>
    intro best
    rw [pickMinAux]
    have h := ih (if cost i < cost best then i else best)
    rcases List.mem_cons.mp h with h1 | h1
    · rw [h1]
      by_cases hc : cost i < cost best
      · simp [hc]
      · simp [hc]
    · exact List.mem_cons_of_mem _ (List.mem_cons_of_mem _ h1)

theorem pickMin_mem (cost : ℕ → ℚ) (l : List ℕ) (i : ℕ) (h : pickMin cost l = some i) :
    i ∈ l := by
  cases l with
  | nil => simp [pickMin] at h
  | cons a rest =>
    rw [pickMin] at h
    have hi := Option.some.inj h
    rw [← hi]
    exact pickMinAux_mem cost rest a

theorem mem_interiorIndices {i n : ℕ} (h : i ∈ interiorIndices n) : 1 ≤ i ∧ i + 1 < n := by
  rw [interiorIndices] at h
  simp only [List.mem_map, List.mem_range] at h
  obtain ⟨j, hj, rfl⟩ := h
  omega

theorem decimateLoop_endpoints (cost : List BezTriple → ℕ → ℚ) (err : WithTop ℚ) :
    ∀ (b : ℕ) (pts : List BezTriple),
      (decimateLoop cost err b pts).head? = pts.head? ∧
      (decimateLoop cost err b pts).getLast? = pts.getLast? := by
  intro b
  induction b with
  | zero => intro pts; exact ⟨rfl, rfl⟩
  | succ b ih =>
    intro pts
    rw [decimateLoop]
    cases hc : cheapestInterior cost pts with
    | none => exact ⟨rfl, rfl⟩
    | some i =>
      have hmem : i ∈ interiorIndices pts.length := by
        rw [cheapestInterior] at hc
        exact pickMin_mem _ _ _ hc
      obtain ⟨h1, h2⟩ := mem_interiorIndices hmem
      dsimp only
      by_cases hle : (cost pts i : WithTop ℚ) ≤ err
      · rw [if_pos hle]
        obtain ⟨ihh, ihl⟩ := ih (pts.eraseIdx i)
        exact ⟨ihh.trans (head?_eraseIdx_of_pos pts i h1),
          ihl.trans (getLast?_eraseIdx pts i h2)⟩
      · rw [if_neg hle]
        exact ⟨rfl, rfl⟩

theorem decimate_graph_keys_eq (remove_ratio : ℚ) (error_sq_max : WithTop ℚ)
    (curves : List FCurve) :
    decimate_graph_keys remove_ratio error_sq_max curves =
      (curves.map (fun c => (decimate_fcurve c remove_ratio error_sq_max).2),
        curves.countP (fun c => c.bezt.isNone)) := by
  induction curves with
  | nil => simp [decimate_graph_keys]
  | cons c cs ih =>
    rw [decimate_graph_keys, ih]
    cases hb : c.bezt with
    | none =>
      simp [decimate_fcurve, hb, List.countP_cons, Nat.add_comm]
    | some pts =>
      simp [decimate_fcurve, hb, List.countP_cons]

/-! ## Claims -/

/-- C6: for all decimation policies (any removal ratio and any error bound)
and every Bezier curve with at least 2 points, the decimated output keeps the
first and the last point of the input unchanged — only interior points are
removal candidates. -/
theorem decimate_fcurve_endpoint_preservation (pts : List BezTriple) (remove_ratio : ℚ)
    (error_sq_max : WithTop ℚ) (h : 2 ≤ pts.length) :
    ∃ pts2, (decimate_fcurve ⟨some pts⟩ remove_ratio error_sq_max).2.bezt = some pts2 ∧
      pts2.head? = pts.head? ∧ pts2.getLast? = pts.getLast? := by
  refine ⟨_, rfl, ?_⟩
  exact decimateLoop_endpoints chordCost error_sq_max _ pts

/-- Witness for C6 at a concrete 3-point curve with full removal ratio. -/
theorem decimate_fcurve_endpoint_preservation_witness :
    2 ≤ ([⟨0, 0, (0, 0), (0, 0), 0⟩, ⟨1, 1, (0, 0), (0, 0), 0⟩,
        ⟨2, 0, (0, 0), (0, 0), 0⟩] : List BezTriple).length ∧
    ∃ pts2,
      (decimate_fcurve
          ⟨some [⟨0, 0, (0, 0), (0, 0), 0⟩, ⟨1, 1, (0, 0), (0, 0), 0⟩,
            ⟨2, 0, (0, 0), (0, 0), 0⟩]⟩ 1 ⊤).2.bezt = some pts2 ∧
      pts2.head? = some ⟨0, 0, (0, 0), (0, 0), 0⟩ ∧
      pts2.getLast? = some ⟨2, 0, (0, 0), (0, 0), 0⟩ :=
  ⟨by decide,
    decimate_fcurve_endpoint_preservation
      [⟨0, 0, (0, 0), (0, 0), 0⟩, ⟨1, 1, (0, 0), (0, 0), 0⟩, ⟨2, 0, (0, 0), (0, 0), 0⟩]
      1 ⊤ (by decide)⟩

/-- C3 counterexample: a batch of 3 selected curves of which 2 are baked does
not report exactly one aggregated warning — the loop in
`decimate_graph_keys` reports one warning per skipped curve, so 2 warnings
are emitted. -/
theorem decimate_graph_keys_not_single_warning :
    (decimate_graph_keys 1 ⊤
        [⟨none⟩,
          ⟨some [⟨0, 0, (0, 0), (0, 0), 0⟩, ⟨1, 1, (0, 0), (0, 0), 0⟩,
            ⟨2, 0, (0, 0), (0, 0), 0⟩]⟩,
          ⟨none⟩]).2 = 2 ∧
    (decimate_graph_keys 1 ⊤
        [⟨none⟩,
          ⟨some [⟨0, 0, (0, 0), (0, 0), 0⟩, ⟨1, 1, (0, 0), (0, 0), 0⟩,
            ⟨2, 0, (0, 0), (0, 0), 0⟩]⟩,
          ⟨none⟩]).2 ≠ 1 := by
  constructor
  · with_unfolding_all decide
  · with_unfolding_all decide

/-- C3 amended: unsupported (baked) curves are skipped and every other curve
is still processed, but the warning is reported inside the loop, once per
skipped curve (so the warning count equals the number of skipped curves, and
a 3-curve selection with 1 baked curve reports exactly 1 warning). -/
theorem decimate_graph_keys_warning_per_skipped (remove_ratio : ℚ)
    (error_sq_max : WithTop ℚ) (curves : List FCurve) :
    (decimate_graph_keys remove_ratio error_sq_max curves).2 =
        curves.countP (fun c => c.bezt.isNone) ∧
    (decimate_graph_keys remove_ratio error_sq_max curves).1 =
        curves.map (fun c => (decimate_fcurve c remove_ratio error_sq_max).2) := by
  rw [decimate_graph_keys_eq]
  exact ⟨rfl, rfl⟩

/-- C4 counterexample: the decimate operation is not free of side effects on
the live curve — with a 3-point curve and full removal ratio,
`decimate_graph_keys` leaves the curve list changed in place, with no
separate caller write-back step. -/
theorem decimate_graph_keys_mutates_in_place :
    (decimate_graph_keys 1 ⊤
        [⟨some [⟨0, 0, (0, 0), (0, 0), 0⟩, ⟨1, 1, (0, 0), (0, 0), 0⟩,
          ⟨2, 0, (0, 0), (0, 0), 0⟩]⟩]).1 ≠
      [⟨some [⟨0, 0, (0, 0), (0, 0), 0⟩, ⟨1, 1, (0, 0), (0, 0), 0⟩,
        ⟨2, 0, (0, 0), (0, 0), 0⟩]⟩] := by
  with_unfolding_all decide

/-- C4 amended: `decimate_fcurve` writes its result back into the curve it is
handed, so the batch loop overwrites each live curve in place with that
curve's decimation result (each output depends only on its own input and the
policy); baked curves are returned untouched.  The original data survives
only through the session snapshot. -/
theorem decimate_graph_keys_in_place_overwrite (remove_ratio : ℚ)
    (error_sq_max : WithTop ℚ) (curves : List FCurve) :
    (decimate_graph_keys remove_ratio error_sq_max curves).1 =
        curves.map (fun c => (decimate_fcurve c remove_ratio error_sq_max).2) ∧
    decimate_fcurve ⟨none⟩ remove_ratio error_sq_max = (false, ⟨none⟩) := by
  rw [decimate_graph_keys_eq]
  exact ⟨rfl, rfl⟩

/-- C5: with a zero removal ratio in ratio mode, or a zero error margin in
error-bound mode, `graphkeys_decimate_exec` returns `OPERATOR_FINISHED`
without touching any curve and without reporting anything, and applying such
a zero-strength invocation twice equals applying it once. -/
theorem graphkeys_decimate_exec_zero_noop (curves : List FCurve) (margin ratio : ℚ) :
    graphkeys_decimate_exec .ratioMode 0 margin curves = (curves, 0, .finished) ∧
    graphkeys_decimate_exec .errorMode ratio 0 curves = (curves, 0, .finished) ∧
    graphkeys_decimate_exec .ratioMode 0 margin
        (graphkeys_decimate_exec .ratioMode 0 margin curves).1 =
      graphkeys_decimate_exec .ratioMode 0 margin curves ∧
    graphkeys_decimate_exec .errorMode ratio 0
        (graphkeys_decimate_exec .errorMode ratio 0 curves).1 =
      graphkeys_decimate_exec .errorMode ratio 0 curves := by
  have hz : ((0 * 0 : ℚ) : WithTop ℚ) = 0 := by norm_num
  refine ⟨?_, ?_, ?_, ?_⟩ <;> simp [graphkeys_decimate_exec, hz]

theorem decimate_fcurve_isNone (c : FCurve) (r : ℚ) (e : WithTop ℚ) :
    ((decimate_fcurve c r e).2).bezt.isNone = c.bezt.isNone := by
  cases hb : c.bezt <;> simp [decimate_fcurve, hb]

theorem bakedPattern_decimate (r : ℚ) (e : WithTop ℚ) (cs : List FCurve) :
    bakedPattern (decimate_graph_keys r e cs).1 = bakedPattern cs := by
  rw [decimate_graph_keys_eq, bakedPattern, bakedPattern, List.map_map]
  apply List.map_congr_left
  intro c _
  exact decimate_fcurve_isNone c r e

theorem bakedPattern_reset (cs : List FCurve) :
    ∀ snaps, bakedPattern (decimate_reset_bezts cs snaps) = bakedPattern cs := by
  induction cs with
  | nil => intro snaps; rfl
  | cons c cs ih =>
    intro snaps
    cases hb : c.bezt with
    | none =>
      have ih2 := ih snaps
      simp only [bakedPattern] at ih2
      simp [decimate_reset_bezts, hb, bakedPattern, ih2]
    | some pts =>
      cases snaps with
      | nil =>
        have ih2 := ih ([] : List (List BezTriple))
        simp only [bakedPattern] at ih2
        simp [decimate_reset_bezts, hb, bakedPattern, ih2]
      | cons s rest =>
        have ih2 := ih rest
        simp only [bakedPattern] at ih2
        simp [decimate_reset_bezts, hb, bakedPattern, ih2]

theorem reset_restores (cs : List FCurve) :
    ∀ (curves0 : List FCurve), bakedPattern cs = bakedPattern curves0 →
      decimate_reset_bezts cs (buildSnapshot curves0) = curves0 := by
  induction cs with
  | nil =>
    intro curves0 h
    cases curves0 with
    | nil => rfl
    | cons c0 rest => simp [bakedPattern] at h
  | cons c cs ih =>
    intro curves0 h
    cases curves0 with
    | nil => simp [bakedPattern] at h
    | cons c0 rest =>
      have hh : c.bezt.isNone = c0.bezt.isNone ∧ bakedPattern cs = bakedPattern rest := by
        simpa [bakedPattern] using h
      cases hb : c.bezt with
      | none =>
        have hb0 : c0.bezt = none := by
          have h1 := hh.1
          rw [hb] at h1
          cases h0 : c0.bezt with
          | none => rfl
          | some pts0 => rw [h0] at h1; simp at h1
        have hc : c = ⟨none⟩ := by cases c; simpa using hb
        have hc0 : c0 = ⟨none⟩ := by cases c0; simpa using hb0
        rw [(by simp [buildSnapshot, hb0] :
          buildSnapshot (c0 :: rest) = buildSnapshot rest)]
        simp only [decimate_reset_bezts, hb]
        rw [ih rest hh.2, hc, hc0]
      | some pts =>
        have hb0 : ∃ pts0, c0.bezt = some pts0 := by
          have h1 := hh.1
          rw [hb] at h1
          cases h0 : c0.bezt with
          | none => rw [h0] at h1; simp at h1
          | some pts0 => exact ⟨pts0, rfl⟩
        obtain ⟨pts0, hb0⟩ := hb0
        have hc0 : c0 = ⟨some pts0⟩ := by cases c0; simpa using hb0
        rw [(by simp [buildSnapshot, hb0] :
          buildSnapshot (c0 :: rest) = pts0 :: buildSnapshot rest)]
        simp only [decimate_reset_bezts, hb]
        rw [ih rest hh.2, hc0]

theorem modal_update_inv (curves0 : List FCurve) (p : ℚ) (s : SessionState)
    (h : sessionInv curves0 s) :
    sessionInv curves0 (graphkeys_decimate_modal_update p s) := by
  obtain ⟨h1, h2⟩ := h
  constructor
  · exact h1
  · show bakedPattern (decimate_graph_keys p ⊤ (decimate_reset_bezts s.curves s.snapshot)).1 =
      bakedPattern curves0
    rw [bakedPattern_decimate, bakedPattern_reset, h2]

theorem applyUpdates_inv (curves0 : List FCurve) (ps : List ℚ) :
    ∀ s, sessionInv curves0 s → sessionInv curves0 (applyUpdates ps s) := by
  induction ps with
  | nil => intro s h; exact h
  | cons p ps ih =>
    intro s h
    rw [applyUpdates, List.foldl_cons]
    exact ih _ (modal_update_inv curves0 p s h)

theorem modal_update_from_snapshot (curves0 : List FCurve) (p : ℚ) (s : SessionState)
    (h : sessionInv curves0 s) :
    graphkeys_decimate_modal_update p s =
      graphkeys_decimate_modal_update p (startSession curves0) := by
  obtain ⟨h1, h2⟩ := h
  show (⟨(decimate_graph_keys p ⊤ (decimate_reset_bezts s.curves s.snapshot)).1,
      s.snapshot⟩ : SessionState) = _
  rw [h1, reset_restores s.curves curves0 h2]
  show _ = (⟨(decimate_graph_keys p ⊤
      (decimate_reset_bezts curves0 (buildSnapshot curves0))).1, buildSnapshot curves0⟩ :
        SessionState)
  rw [reset_restores curves0 curves0 rfl]

/-- C1: path independence of interactive updates — for a session started on a
fixed selection, any sequence of modal update steps ending with ratio `p`
leaves the session in exactly the state a single update with `p` reaches from
the starting snapshot, because every update first restores all curves from
the snapshot and then re-runs the decimator (it never decimates the
already-decimated output). -/
theorem graphkeys_decimate_update_path_independence (curves0 : List FCurve)
    (ps : List ℚ) (p : ℚ) :
    applyUpdates (ps ++ [p]) (startSession curves0) =
      graphkeys_decimate_modal_update p (startSession curves0) := by
  have hinv : sessionInv curves0 (applyUpdates ps (startSession curves0)) :=
    applyUpdates_inv curves0 ps (startSession curves0) ⟨rfl, rfl⟩
  rw [applyUpdates, List.foldl_append, List.foldl_cons, List.foldl_nil]
  exact modal_update_from_snapshot curves0 p _ hinv

/-- C2: cancel restores exactly — after any number of modal updates, the
Escape / right-mouse branch restores every live curve structurally equal to
its pre-session state from the snapshot, frees the snapshot, and returns
`OPERATOR_CANCELLED`. -/
theorem graphkeys_decimate_cancel_restores (curves0 : List FCurve) (ps : List ℚ) :
    graphkeys_decimate_cancel (applyUpdates ps (startSession curves0)) =
      ⟨curves0, OpStatus.cancelled, true⟩ := by
  obtain ⟨h1, h2⟩ := applyUpdates_inv curves0 ps (startSession curves0) ⟨rfl, rfl⟩
  show (⟨decimate_reset_bezts (applyUpdates ps (startSession curves0)).curves
      (applyUpdates ps (startSession curves0)).snapshot,
    OpStatus.cancelled, true⟩ : CancelResult) = _
  rw [h1, reset_restores _ _ h2]

/-- C7: empty-selection start failure — when every curve in the selection is
baked (or the selection is empty), `graphkeys_decimate_invoke` reports one
warning, frees the partially built session data, returns
`OPERATOR_CANCELLED`, and never enters the modal (Active) state. -/
theorem graphkeys_decimate_invoke_empty_selection (curves : List FCurve)
    (h : ∀ c ∈ curves, c.bezt = none) :
    graphkeys_decimate_invoke curves = ⟨none, .cancelled, 1⟩ ∧
    (graphkeys_decimate_invoke curves).status ≠ OpStatus.runningModal := by
  have hsnap : buildSnapshot curves = [] := by
    rw [buildSnapshot, List.filterMap_eq_nil_iff]
    exact h
  constructor
  · simp [graphkeys_decimate_invoke, hsnap]
  · simp [graphkeys_decimate_invoke, hsnap]

/-- Witness for C7 at a one-curve selection whose only curve is baked. -/
theorem graphkeys_decimate_invoke_empty_selection_witness :
    (∀ c ∈ ([⟨none⟩] : List FCurve), c.bezt = none) ∧
    (graphkeys_decimate_invoke [⟨none⟩] = ⟨none, .cancelled, 1⟩ ∧
      (graphkeys_decimate_invoke [⟨none⟩]).status ≠ OpStatus.runningModal) :=
  ⟨by decide, graphkeys_decimate_invoke_empty_selection [⟨none⟩] (by decide)⟩

theorem step_preserves_engaged (e : ModalEvent) (st : OpState)
    (h : st.numEngaged = true) :
    (graphkeys_decimate_modal_step e st).numEngaged = true := by
  cases e with
  | mouseMove raw => simp [graphkeys_decimate_modal_step, h]
  | numInput raw => simp [graphkeys_decimate_modal_step, set_ratio_and_update]
  | passThrough => simpa [graphkeys_decimate_modal_step] using h

theorem runModal_preserves_engaged (evts : List ModalEvent) :
    ∀ st : OpState, st.numEngaged = true → (runModal evts st).numEngaged = true := by
  induction evts with
  | nil => intro st h; exact h
  | cons e evts ih =>
    intro st h
    rw [runModal, List.foldl_cons]
    exact ih _ (step_preserves_engaged e st h)

theorem runModal_filter_mousemove (evts : List ModalEvent) :
    ∀ st : OpState, st.numEngaged = true →
      runModal evts st = runModal (evts.filter (fun e => !e.isMouseMove)) st := by
  induction evts with
  | nil => intro st h; rfl
  | cons e evts ih =>
    intro st h
    cases e with
    | mouseMove raw =>
      rw [runModal, List.foldl_cons]
      have hstep : graphkeys_decimate_modal_step (.mouseMove raw) st = st := by
        simp [graphkeys_decimate_modal_step, h]
      rw [hstep,
        (by simp [List.filter_cons, ModalEvent.isMouseMove] :
          ((ModalEvent.mouseMove raw :: evts).filter (fun e => !e.isMouseMove)) =
            evts.filter (fun e => !e.isMouseMove))]
      exact ih st h
    | numInput raw =>
      rw [(by simp [List.filter_cons, ModalEvent.isMouseMove] :
          ((ModalEvent.numInput raw :: evts).filter (fun e => !e.isMouseMove)) =
            ModalEvent.numInput raw :: evts.filter (fun e => !e.isMouseMove))]
      rw [runModal, List.foldl_cons, runModal, List.foldl_cons]
      exact ih _ (step_preserves_engaged (.numInput raw) st h)
    | passThrough =>
      rw [(by simp [List.filter_cons, ModalEvent.isMouseMove] :
          ((ModalEvent.passThrough :: evts).filter (fun e => !e.isMouseMove)) =
            ModalEvent.passThrough :: evts.filter (fun e => !e.isMouseMove))]
      rw [runModal, List.foldl_cons, runModal, List.foldl_cons]
      exact ih _ (step_preserves_engaged .passThrough st h)

/-- C8: numeric input precedence — once numeric entry is engaged, mouse-move
events never change anything for the rest of the session (running any event
sequence equals running it with all mouse moves removed, and the engagement
flag stays set), and a numerically entered value goes through the same
clamping and snapshot re-derivation as pointer updates
(`RNA_property_float_set` with the `[0,1]` property range followed by
`graphkeys_decimate_modal_update`). -/
theorem graphkeys_decimate_numeric_input_precedence (st : OpState)
    (evts : List ModalEvent) (raw : ℚ) (h : st.numEngaged = true) :
    runModal evts st = runModal (evts.filter (fun e => !e.isMouseMove)) st ∧
    (runModal evts st).numEngaged = true ∧
    (graphkeys_decimate_modal_step (.numInput raw) st).percentage = clamp01 raw ∧
    (graphkeys_decimate_modal_step (.numInput raw) st).session =
      graphkeys_decimate_modal_update (clamp01 raw) st.session :=
  ⟨runModal_filter_mousemove evts st h, runModal_preserves_engaged evts st h, rfl, rfl⟩

/-- Witness for C8 at a concrete engaged state: a pending mouse move is
ignored and the numeric path stores the clamped value. -/
theorem graphkeys_decimate_numeric_input_precedence_witness :
    ((⟨⟨[], []⟩, 0, true⟩ : OpState).numEngaged = true) ∧
    (runModal [ModalEvent.mouseMove 2, ModalEvent.passThrough] ⟨⟨[], []⟩, 0, true⟩ =
        runModal ([ModalEvent.mouseMove 2, ModalEvent.passThrough].filter
          (fun e => !e.isMouseMove)) ⟨⟨[], []⟩, 0, true⟩ ∧
      (runModal [ModalEvent.mouseMove 2, ModalEvent.passThrough]
          ⟨⟨[], []⟩, 0, true⟩).numEngaged = true ∧
      (graphkeys_decimate_modal_step (.numInput (1 / 2))
          ⟨⟨[], []⟩, 0, true⟩).percentage = clamp01 (1 / 2) ∧
      (graphkeys_decimate_modal_step (.numInput (1 / 2))
          ⟨⟨[], []⟩, 0, true⟩).session =
        graphkeys_decimate_modal_update (clamp01 (1 / 2))
          (⟨⟨[], []⟩, 0, true⟩ : OpState).session) :=
  ⟨rfl, graphkeys_decimate_numeric_input_precedence ⟨⟨[], []⟩, 0, true⟩
    [ModalEvent.mouseMove 2, ModalEvent.passThrough] (1 / 2) rfl⟩

/-- C9: in the degenerate-extents guard of `get_graph_keyframe_extents`, a
degenerate y-extent is returned unchanged — both `0.0005` adjustments land on
`*ymax` and cancel — while a degenerate x-extent is genuinely widened to
`[xmin - 0.0005, xmax + 0.0005]`. -/
theorem get_graph_keyframe_extents_degenerate (xmin xmax ymin ymax : ℚ) :
    (|ymax - ymin| < 1 / 1000 →
      (extents_degenerate_guard xmin xmax ymin ymax).2.2.1 = ymin ∧
      (extents_degenerate_guard xmin xmax ymin ymax).2.2.2 = ymax) ∧
    (|xmax - xmin| < 1 / 1000 →
      (extents_degenerate_guard xmin xmax ymin ymax).1 = xmin - 1 / 2000 ∧
      (extents_degenerate_guard xmin xmax ymin ymax).2.1 = xmax + 1 / 2000) := by
  constructor
  · intro hy
    refine ⟨rfl, ?_⟩
    show (if |ymax - ymin| < 1 / 1000 then ymax - 1 / 2000 + 1 / 2000 else ymax) = ymax
    rw [if_pos hy]
    ring
  · intro hx
    constructor
    · show (if |xmax - xmin| < 1 / 1000 then
          ((xmin - 1 / 2000, xmax + 1 / 2000) : ℚ × ℚ) else (xmin, xmax)).1 = xmin - 1 / 2000
      rw [if_pos hx]
    · show (if |xmax - xmin| < 1 / 1000 then
          ((xmin - 1 / 2000, xmax + 1 / 2000) : ℚ × ℚ) else (xmin, xmax)).2 = xmax + 1 / 2000
      rw [if_pos hx]

/-- Witness for C9 at a fully degenerate extent rectangle. -/
theorem get_graph_keyframe_extents_degenerate_witness :
    (|(5 : ℚ) - 5| < 1 / 1000 ∧ |(1 : ℚ) - 1| < 1 / 1000) ∧
    ((extents_degenerate_guard 1 1 5 5).2.2.1 = 5 ∧
      (extents_degenerate_guard 1 1 5 5).2.2.2 = 5) ∧
    ((extents_degenerate_guard 1 1 5 5).1 = 1 - 1 / 2000 ∧
      (extents_degenerate_guard 1 1 5 5).2.1 = 1 + 1 / 2000) :=
  ⟨⟨by norm_num, by norm_num⟩,
    (get_graph_keyframe_extents_degenerate 1 1 5 5).1 (by norm_num),
    (get_graph_keyframe_extents_degenerate 1 1 5 5).2 (by norm_num)⟩

/-- C10: the Triangulate node always passes `max(socket, 4)` (never below 4)
as the minimum-vertices argument to `triangulate_mesh`, and when the input
geometry is absent or carries no mesh it outputs the empty geometry without
calling the triangulation routine at all. -/
theorem geo_triangulate_exec_min_vertices (tri : Mesh → ℤ → ℤ → ℤ → ℤ → Mesh)
    (geometry_in : Option Geometry) (socket : ℤ) :
    (∀ call ∈ (geo_triangulate_exec tri geometry_in socket).2,
        call.min_vertices = max socket 4 ∧ 4 ≤ call.min_vertices) ∧
    ((∀ g ∈ geometry_in, g.mesh = none) →
      geo_triangulate_exec tri geometry_in socket = (none, [])) := by
  cases geometry_in with
  | none =>
    refine ⟨?_, fun _ => rfl⟩
    intro call hc
    simp [geo_triangulate_exec] at hc
  | some g =>
    cases hm : g.mesh with
    | none =>
      constructor
      · intro call hc
        simp [geo_triangulate_exec, hm] at hc
      · intro _
        simp [geo_triangulate_exec, hm]
    | some m =>
      constructor
      · intro call hc
        simp [geo_triangulate_exec, hm] at hc
        rw [hc]
        exact ⟨rfl, le_max_right socket 4⟩
      · intro hall
        exact absurd (hm ▸ hall g rfl) (by simp)

/-- Witness for C10: geometry present but carrying no mesh yields the empty
output and an empty call log. -/
theorem geo_triangulate_exec_min_vertices_witness :
    (∀ g ∈ (some (⟨none⟩ : Geometry) : Option Geometry), g.mesh = none) ∧
    geo_triangulate_exec (fun m _ _ _ _ => m) (some ⟨none⟩) (-7) = (none, []) :=
  ⟨by simp, (geo_triangulate_exec_min_vertices (fun m _ _ _ _ => m)
    (some ⟨none⟩) (-7)).2 (by simp)⟩

end Spec2Proof
